import Mathlib

/-!
Shallow embedding of the translator application (`translator_app.py`).

The program is a memoizing document translator: a single module-level
dictionary `cache` maps trimmed source strings to translations,
`translate_text_string` wraps one provider call with a blank-check, a cache
lookup and a bounded (3-attempt) retry loop, and the per-format walkers
(`translate_csv_file`, `translate_txt_file`, `translate_excel_file`)
route every header and cell value of a parsed document through it.

Modelling choices, all taken from the source:
* A cell value as produced by the pandas parsers is either the Python
  constant `None`, the floating-point missing-value marker `NaN`
  (pandas stores a missing CSV/Excel cell as `float("nan")`, whose `str`
  form is the four characters `nan`), or a string.  Only the textual
  identity of `str(value)` matters to the program, so `NaN` is embedded
  by that textual identity; no floating-point arithmetic is involved.
* Python's `str.strip()` is embedded as dropping whitespace characters
  from both ends of the character list.
* The provider (`translator.translate`) is an oracle indexed by a global
  invocation counter: attempt number `n` of the run either fails
  (`none`, the Python code raises) or returns a translation.  The state
  threaded through every operation records the cache contents and how
  many provider invocations have happened, so "the provider is never
  called" is the statement that the counter does not change.
* `time.sleep` has no observable effect on the values computed and is
  not modelled.
-/

namespace TranslatorApp

/-- A value held in a parsed document cell: Python `None`, the pandas
missing-value marker `NaN` (a float whose text form is `nan`), or a
string. -/
inductive Cell where
  | pynone : Cell
  | nan : Cell
  | s : String → Cell
deriving DecidableEq

/-- Python `str(value)` for the three cell shapes. -/
def cellStr : Cell → String
  | Cell.pynone => "None"
  | Cell.nan => "nan"
  | Cell.s v => v

/-- Characters removed by Python `str.strip()`. -/
def pyWS (c : Char) : Bool := c.isWhitespace

/-- `str.strip()` on a character list: drop whitespace from the left,
then from the right. -/
def stripChars (l : List Char) : List Char :=
  List.rdropWhile pyWS (List.dropWhile pyWS l)

/-- Python `str.strip()`. -/
def pyStrip (t : String) : String := ⟨stripChars t.data⟩

/-- The provider oracle: given the global invocation counter and the text
to translate, either fail (the Python call raises) or return the
translation. -/
def Provider : Type := Nat → String → Option String

/-- The mutable state of the program: the module-level `cache` dictionary
(association list, most recent insertion first) and the number of provider
invocations performed so far. -/
structure TState where
  cache : List (String × String)
  calls : Nat
deriving DecidableEq

/-- Dictionary lookup (`s in cache` / `cache[s]`). -/
def lookupC : List (String × String) → String → Option String
  | [], _ => none
  | (k, v) :: rest, key => if k = key then some v else lookupC rest key

/-- Dictionary store (`cache[s] = zh`). -/
def insertC (c : List (String × String)) (k v : String) :
    List (String × String) :=
  (k, v) :: c

/-- The `for _ in range(3)` retry loop of `translate_text_string`: attempt
the provider; on success store the result in the cache and return it, on
failure retry with the remaining budget; once the budget is exhausted fall
back to the untranslated string `s` without touching the cache. -/
def tryTranslate (p : Provider) (t : String) (st : TState) :
    Nat → String × TState
  | 0 => (t, st)
  | n + 1 =>
    match p st.calls t with
    | some zh => (zh, ⟨insertC st.cache t zh, st.calls + 1⟩)
    | none => tryTranslate p t ⟨st.cache, st.calls + 1⟩ n

/-- `translate_text_string(text, translator)`: blank short-circuit, cache
lookup, then the bounded retry loop. -/
def translate_text_string (p : Provider) (text : Cell) (st : TState) :
    Cell × TState :=
  if text = Cell.pynone ∨ pyStrip (cellStr text) = "" then (text, st)
  else
    match lookupC st.cache (pyStrip (cellStr text)) with
    | some v => (Cell.s v, st)
    | none =>
      let r := tryTranslate p (pyStrip (cellStr text)) st 3
      (Cell.s r.1, r.2)

/-- Route a list of values (a header row, or one column of cells) through
`translate_text_string` in order, threading the state. -/
def translateCells (p : Provider) : List Cell → TState → List Cell × TState
  | [], st => ([], st)
  | v :: rest, st =>
    let r := translate_text_string p v st
    let rr := translateCells p rest r.2
    (r.1 :: rr.1, rr.2)

/-- Route the columns of a data frame through the translator column by
column (`df.apply(lambda col: col.map(...))`). -/
def translateCols (p : Provider) :
    List (List Cell) → TState → List (List Cell) × TState
  | [], st => ([], st)
  | c :: rest, st =>
    let r := translateCells p c st
    let rr := translateCols p rest r.2
    (r.1 :: rr.1, rr.2)

/-- A parsed data frame: a header row of column names and the data as an
ordered list of columns (pandas stores frames column-wise; the code walks
headers first, then cells column by column). -/
structure Table where
  header : List Cell
  cols : List (List Cell)
deriving DecidableEq

/-- `translate_csv_file`: translate the headers, then every cell value,
and reassemble a frame of the same shape. -/
def translate_csv_file (p : Provider) (t : Table) (st : TState) :
    Table × TState :=
  let h := translateCells p t.header st
  let c := translateCols p t.cols h.2
  (⟨h.1, c.1⟩, c.2)

/-- `translate_txt_file`: the whole decoded content is one translatable
unit. -/
def translate_txt_file (p : Provider) (content : String) (st : TState) :
    Cell × TState :=
  translate_text_string p (Cell.s content) st

/-- `translate_excel_file`: walk the ordered sheet list, translating each
sheet like a CSV frame; sheet names are copied, never translated. -/
def translate_excel_file (p : Provider) :
    List (String × Table) → TState → List (String × Table) × TState
  | [], st => ([], st)
  | (name, tb) :: rest, st =>
    let r := translate_csv_file p tb st
    let rr := translate_excel_file p rest r.2
    ((name, r.1) :: rr.1, rr.2)

/-- A provider whose every invocation fails (raises). -/
def failingProvider : Provider := fun _ _ => none

/-- A concrete always-succeeding provider used for evaluation. -/
def sampleProvider : Provider := fun _ t => some ("T" ++ t)

/-- The value `translate_text_string` produces for one input value when
every provider attempt fails and the cache holds no entry for it: blanks
and `None` pass through, everything else falls back to its trimmed text. -/
def fallbackCell (v : Cell) : Cell :=
  if v = Cell.pynone ∨ pyStrip (cellStr v) = "" then v
  else Cell.s (pyStrip (cellStr v))

/-- Python `str.lower()`. -/
def pyLower (t : String) : String := ⟨t.data.map Char.toLower⟩

/-- Python `str.endswith(suffix)`. -/
def pyEndsWith (t suf : String) : Bool := List.isSuffixOf suf.data t.data

/-- Python `name.rsplit(".", 1)[0]`: everything before the last dot, or
the whole string when there is no dot. -/
def rsplitDotHead (t : String) : String :=
  match t.data.reverse.dropWhile (fun c => c != '.') with
  | [] => t
  | _ :: rest => ⟨rest.reverse⟩

/-- The extension dispatch of `main`: lower-case the file name, test the
recognized extensions in order (`.csv`, `.txt`, then `.xlsx` or `.xls`),
and build the download name from the original name; unsupported names are
rejected. -/
def mainOutName (filename : String) : Option String :=
  if pyEndsWith (pyLower filename) ".csv" then
    some (rsplitDotHead filename ++ "_translated.csv")
  else if pyEndsWith (pyLower filename) ".txt" then
    some (rsplitDotHead filename ++ "_translated.txt")
  else if pyEndsWith (pyLower filename) ".xlsx" ∨
      pyEndsWith (pyLower filename) ".xls" then
    some (rsplitDotHead filename ++ "_translated.xlsx")
  else none

@[simp]
theorem cellStr_s (t : String) : cellStr (Cell.s t) = t := rfl

/-- The short-circuit branch of `translate_text_string`: null and
blank-trimming values come back unchanged with the state untouched. -/
theorem ttsBlank (p : Provider) (st : TState) (v : Cell)
    (h : v = Cell.pynone ∨ pyStrip (cellStr v) = "") :
    translate_text_string p v st = (v, st) := by
  unfold translate_text_string
  rw [if_pos h]

/-- A non-blank string wrapped as a cell fails the short-circuit test of
`translate_text_string`. -/
theorem cellS_not_blank {t : String} (hnb : pyStrip t ≠ "") :
    ¬(Cell.s t = Cell.pynone ∨ pyStrip (cellStr (Cell.s t)) = "") := by
  intro h
  rcases h with h | h
  · exact Cell.noConfusion h
  · exact hnb h

/-- The most recent store wins the lookup, as in a Python dictionary. -/
theorem lookupC_insert_self (c : List (String × String)) (k v : String) :
    lookupC (insertC c k v) k = some v := by
  simp [lookupC, insertC]

/-- Unfolding of `translate_text_string` on a cache hit. -/
theorem ttsHit (p : Provider) (st : TState) (v : Cell) (w : String)
    (hv : ¬(v = Cell.pynone ∨ pyStrip (cellStr v) = ""))
    (h : lookupC st.cache (pyStrip (cellStr v)) = some w) :
    translate_text_string p v st = (Cell.s w, st) := by
  unfold translate_text_string
  rw [if_neg hv, h]

/-- Unfolding of `translate_text_string` on a cache miss. -/
theorem ttsMiss (p : Provider) (st : TState) (v : Cell)
    (hv : ¬(v = Cell.pynone ∨ pyStrip (cellStr v) = ""))
    (h : lookupC st.cache (pyStrip (cellStr v)) = none) :
    translate_text_string p v st =
      (Cell.s (tryTranslate p (pyStrip (cellStr v)) st 3).1,
        (tryTranslate p (pyStrip (cellStr v)) st 3).2) := by
  unfold translate_text_string
  rw [if_neg hv, h]

/-- `ttsHit` specialized to a string cell. -/
theorem ttsHitS (p : Provider) (st : TState) (t w : String)
    (hnb : pyStrip t ≠ "")
    (h : lookupC st.cache (pyStrip t) = some w) :
    translate_text_string p (Cell.s t) st = (Cell.s w, st) :=
  ttsHit p st (Cell.s t) w (cellS_not_blank hnb) h

/-- `ttsMiss` specialized to a string cell. -/
theorem ttsMissS (p : Provider) (st : TState) (t : String)
    (hnb : pyStrip t ≠ "")
    (h : lookupC st.cache (pyStrip t) = none) :
    translate_text_string p (Cell.s t) st =
      (Cell.s (tryTranslate p (pyStrip t) st 3).1,
        (tryTranslate p (pyStrip t) st 3).2) :=
  ttsMiss p st (Cell.s t) (cellS_not_blank hnb) h

/-- When every attempt in the budget fails, the retry loop returns the
untranslated string, leaves the cache untouched and uses up `n` provider
invocations. -/
theorem tryTranslate_all_fail (p : Provider) (t : String) :
    ∀ (n : Nat) (st : TState), (∀ i, i < n → p (st.calls + i) t = none) →
      tryTranslate p t st n = (t, ⟨st.cache, st.calls + n⟩) := by
  intro n
  induction n with
  | zero => intro st _; rfl
  | succ n ih =>
    intro st h
    have h0 : p st.calls t = none := by
      have h1 := h 0 (Nat.succ_pos n)
      simpa using h1
    have hshift : ∀ i, i < n →
        p ((⟨st.cache, st.calls + 1⟩ : TState).calls + i) t = none := by
      intro i hi
      have e : st.calls + 1 + i = st.calls + (i + 1) := by omega
      show p (st.calls + 1 + i) t = none
      rw [e]
      exact h (i + 1) (by omega)
    have ih1 := ih ⟨st.cache, st.calls + 1⟩ hshift
    simp only [tryTranslate, h0]
    rw [ih1]
    have e : st.calls + 1 + n = st.calls + (n + 1) := by omega
    rw [e]

/-- If the first `k` attempts fail and attempt `k` (within the budget)
succeeds with `zh`, the retry loop stores `zh` in the cache and returns
it, having used `k + 1` provider invocations. -/
theorem tryTranslate_success (p : Provider) (t : String) :
    ∀ (k n : Nat) (st : TState) (zh : String), k < n →
      (∀ i, i < k → p (st.calls + i) t = none) →
      p (st.calls + k) t = some zh →
      tryTranslate p t st n =
        (zh, ⟨insertC st.cache t zh, st.calls + k + 1⟩) := by
  intro k
  induction k with
  | zero =>
    intro n st zh hk _ hok
    cases n with
    | zero => exact absurd hk (by omega)
    | succ n =>
      have hok0 : p st.calls t = some zh := by simpa using hok
      simp only [tryTranslate, hok0]
  | succ k ih =>
    intro n st zh hk hfail hok
    cases n with
    | zero => exact absurd hk (by omega)
    | succ n =>
      have h0 : p st.calls t = none := by
        have h1 := hfail 0 (Nat.succ_pos k)
        simpa using h1
      have hshiftf : ∀ i, i < k →
          p ((⟨st.cache, st.calls + 1⟩ : TState).calls + i) t = none := by
        intro i hi
        have e : st.calls + 1 + i = st.calls + (i + 1) := by omega
        show p (st.calls + 1 + i) t = none
        rw [e]
        exact hfail (i + 1) (by omega)
      have hshifts : p ((⟨st.cache, st.calls + 1⟩ : TState).calls + k) t =
          some zh := by
        have e : st.calls + 1 + k = st.calls + (k + 1) := by omega
        show p (st.calls + 1 + k) t = some zh
        rw [e]
        exact hok
      have ih1 := ih n ⟨st.cache, st.calls + 1⟩ zh (by omega) hshiftf hshifts
      simp only [tryTranslate, h0]
      rw [ih1]
      have e : st.calls + 1 + k + 1 = st.calls + (k + 1) + 1 := by omega
      rw [e]

/-- The retry loop never decreases the invocation counter. -/
theorem tryTranslate_calls_le (p : Provider) (t : String) :
    ∀ (n : Nat) (st : TState),
      st.calls ≤ (tryTranslate p t st n).2.calls := by
  intro n
  induction n with
  | zero => intro st; exact Nat.le_refl _
  | succ n ih =>
    intro st
    simp only [tryTranslate]
    cases hp : p st.calls t with
    | some zh => exact Nat.le_succ _
    | none =>
      exact Nat.le_trans (Nat.le_succ _) (ih ⟨st.cache, st.calls + 1⟩)

/-- With a positive budget the retry loop invokes the provider at least
once. -/
theorem tryTranslate_calls_lt (p : Provider) (t : String) (st : TState)
    (n : Nat) (h : 0 < n) :
    st.calls < (tryTranslate p t st n).2.calls := by
  cases n with
  | zero => exact absurd h (by omega)
  | succ n =>
    simp only [tryTranslate]
    cases hp : p st.calls t with
    | some zh => exact Nat.lt_succ_self _
    | none =>
      exact Nat.lt_of_lt_of_le (Nat.lt_succ_self _)
        (tryTranslate_calls_le p t n ⟨st.cache, st.calls + 1⟩)

/-- C1: for every input value that is null, or whose text form after
trimming is empty, `translate_text_string` returns that exact value
unchanged (preserving nullness) and leaves the state — including the
provider-invocation counter — untouched, so the provider is never invoked
for it. -/
theorem c1_blank_identity (p : Provider) (st : TState) (v : Cell)
    (h : v = Cell.pynone ∨ pyStrip (cellStr v) = "") :
    translate_text_string p v st = (v, st) :=
  ttsBlank p st v h

/-- Witness for C1 at the null value and at a whitespace-only string. -/
theorem c1_blank_identity_witness :
    ((Cell.pynone = Cell.pynone ∨ pyStrip (cellStr Cell.pynone) = "") ∧
      translate_text_string sampleProvider Cell.pynone ⟨[], 0⟩ =
        (Cell.pynone, ⟨[], 0⟩)) ∧
    ((Cell.s "  " = Cell.pynone ∨ pyStrip (cellStr (Cell.s "  ")) = "") ∧
      translate_text_string sampleProvider (Cell.s "  ") ⟨[], 0⟩ =
        (Cell.s "  ", ⟨[], 0⟩)) :=
  ⟨⟨by decide, c1_blank_identity sampleProvider ⟨[], 0⟩ Cell.pynone (by decide)⟩,
    ⟨by decide, c1_blank_identity sampleProvider ⟨[], 0⟩ (Cell.s "  ") (by decide)⟩⟩

/-- C2: for a non-blank string whose trimmed form is already a cache key,
`translate_text_string` returns the cached translation with the state —
including the invocation counter — unchanged (no provider call).  Hence,
whenever the provider answers the first attempt, translating the same
non-blank string twice performs exactly one provider invocation in total
(counter `+ 1` in the first call, unchanged in the second) and the second
call returns the identical cached value. -/
theorem c2_cache_hit_once (p : Provider) (t : String)
    (hnb : pyStrip t ≠ "") :
    (∀ (st : TState) (v : String),
        lookupC st.cache (pyStrip t) = some v →
        translate_text_string p (Cell.s t) st = (Cell.s v, st)) ∧
    (∀ (st : TState) (zh : String),
        lookupC st.cache (pyStrip t) = none →
        p st.calls (pyStrip t) = some zh →
        translate_text_string p (Cell.s t) st =
          (Cell.s zh, ⟨insertC st.cache (pyStrip t) zh, st.calls + 1⟩) ∧
        translate_text_string p (Cell.s t)
            ⟨insertC st.cache (pyStrip t) zh, st.calls + 1⟩ =
          (Cell.s zh, ⟨insertC st.cache (pyStrip t) zh, st.calls + 1⟩)) := by
  constructor
  · intro st v h
    exact ttsHitS p st t v hnb h
  · intro st zh hmiss hok
    constructor
    · rw [ttsMissS p st t hnb hmiss,
        tryTranslate_success p (pyStrip t) 0 3 st zh (by omega)
          (fun i hi => absurd hi (by omega)) hok]
    · exact ttsHitS p ⟨insertC st.cache (pyStrip t) zh, st.calls + 1⟩ t zh
        hnb (lookupC_insert_self st.cache (pyStrip t) zh)

/-- Witness for C2: the string `hi` under the sample provider. -/
theorem c2_cache_hit_once_witness :
    pyStrip "hi" ≠ "" ∧
    ((∀ (st : TState) (v : String),
        lookupC st.cache (pyStrip "hi") = some v →
        translate_text_string sampleProvider (Cell.s "hi") st =
          (Cell.s v, st)) ∧
    (∀ (st : TState) (zh : String),
        lookupC st.cache (pyStrip "hi") = none →
        sampleProvider st.calls (pyStrip "hi") = some zh →
        translate_text_string sampleProvider (Cell.s "hi") st =
          (Cell.s zh, ⟨insertC st.cache (pyStrip "hi") zh, st.calls + 1⟩) ∧
        translate_text_string sampleProvider (Cell.s "hi")
            ⟨insertC st.cache (pyStrip "hi") zh, st.calls + 1⟩ =
          (Cell.s zh,
            ⟨insertC st.cache (pyStrip "hi") zh, st.calls + 1⟩))) :=
  ⟨by decide, c2_cache_hit_once sampleProvider "hi" (by decide)⟩

/-- C3: on a cache miss the function never raises: if all 3 attempts fail
it returns the original trimmed string (not null, not an error) with the
cache untouched, and on the first successful attempt `k` it stores the
provider result in the cache and returns it. -/
theorem c3_retry_fallback (p : Provider) (st : TState) (t : String)
    (hnb : pyStrip t ≠ "")
    (hmiss : lookupC st.cache (pyStrip t) = none) :
    ((∀ i, i < 3 → p (st.calls + i) (pyStrip t) = none) →
        translate_text_string p (Cell.s t) st =
          (Cell.s (pyStrip t), ⟨st.cache, st.calls + 3⟩)) ∧
    (∀ (k : Nat) (zh : String), k < 3 →
        (∀ i, i < k → p (st.calls + i) (pyStrip t) = none) →
        p (st.calls + k) (pyStrip t) = some zh →
        translate_text_string p (Cell.s t) st =
          (Cell.s zh,
            ⟨insertC st.cache (pyStrip t) zh, st.calls + k + 1⟩)) := by
  constructor
  · intro hfail
    rw [ttsMissS p st t hnb hmiss,
      tryTranslate_all_fail p (pyStrip t) 3 st hfail]
  · intro k zh hk hfail hok
    rw [ttsMissS p st t hnb hmiss,
      tryTranslate_success p (pyStrip t) k 3 st zh hk hfail hok]

/-- Witness for C3: the string `hi`, empty cache, failing provider. -/
theorem c3_retry_fallback_witness :
    pyStrip "hi" ≠ "" ∧
    lookupC ([] : List (String × String)) (pyStrip "hi") = none ∧
    (((∀ i, i < 3 →
          failingProvider ((⟨[], 0⟩ : TState).calls + i) (pyStrip "hi") =
            none) →
        translate_text_string failingProvider (Cell.s "hi") ⟨[], 0⟩ =
          (Cell.s (pyStrip "hi"), ⟨[], 0 + 3⟩)) ∧
    (∀ (k : Nat) (zh : String), k < 3 →
        (∀ i, i < k →
          failingProvider ((⟨[], 0⟩ : TState).calls + i) (pyStrip "hi") =
            none) →
        failingProvider ((⟨[], 0⟩ : TState).calls + k) (pyStrip "hi") =
          some zh →
        translate_text_string failingProvider (Cell.s "hi") ⟨[], 0⟩ =
          (Cell.s zh,
            ⟨insertC [] (pyStrip "hi") zh, 0 + k + 1⟩))) :=
  ⟨by decide, rfl,
    c3_retry_fallback failingProvider ⟨[], 0⟩ "hi" (by decide) rfl⟩

/-- C4: when the 3-attempt budget is exhausted, the returned fallback is
not stored: the cache comes out exactly as it went in, the key is still
absent, and a later call with the same key strictly increases the
invocation counter — it attempts the provider again instead of reusing
the fallback. -/
theorem c4_fallback_not_cached (p : Provider) (st : TState) (t : String)
    (hnb : pyStrip t ≠ "")
    (hmiss : lookupC st.cache (pyStrip t) = none)
    (hfail : ∀ i, i < 3 → p (st.calls + i) (pyStrip t) = none) :
    (translate_text_string p (Cell.s t) st).2.cache = st.cache ∧
    lookupC (translate_text_string p (Cell.s t) st).2.cache (pyStrip t) =
      none ∧
    (translate_text_string p (Cell.s t) st).2.calls <
      (translate_text_string p (Cell.s t)
          (translate_text_string p (Cell.s t) st).2).2.calls := by
  have e2 : translate_text_string p (Cell.s t) st =
      (Cell.s (pyStrip t), ⟨st.cache, st.calls + 3⟩) := by
    rw [ttsMissS p st t hnb hmiss,
      tryTranslate_all_fail p (pyStrip t) 3 st hfail]
  rw [e2]
  refine ⟨rfl, hmiss, ?_⟩
  show st.calls + 3 <
    (translate_text_string p (Cell.s t)
        (⟨st.cache, st.calls + 3⟩ : TState)).2.calls
  rw [ttsMissS p ⟨st.cache, st.calls + 3⟩ t hnb hmiss]
  exact tryTranslate_calls_lt p (pyStrip t) ⟨st.cache, st.calls + 3⟩ 3
    (by omega)

/-- Witness for C4: the string `hi`, empty cache, failing provider. -/
theorem c4_fallback_not_cached_witness :
    pyStrip "hi" ≠ "" ∧
    lookupC ([] : List (String × String)) (pyStrip "hi") = none ∧
    (∀ i, i < 3 →
      failingProvider ((⟨[], 0⟩ : TState).calls + i) (pyStrip "hi") =
        none) ∧
    ((translate_text_string failingProvider (Cell.s "hi")
        ⟨[], 0⟩).2.cache = ([] : List (String × String)) ∧
    lookupC (translate_text_string failingProvider (Cell.s "hi")
        ⟨[], 0⟩).2.cache (pyStrip "hi") = none ∧
    (translate_text_string failingProvider (Cell.s "hi") ⟨[], 0⟩).2.calls <
      (translate_text_string failingProvider (Cell.s "hi")
          (translate_text_string failingProvider (Cell.s "hi")
            ⟨[], 0⟩).2).2.calls) :=
  ⟨by decide, rfl, fun i _ => rfl,
    c4_fallback_not_cached failingProvider ⟨[], 0⟩ "hi" (by decide) rfl
      (fun i _ => rfl)⟩

/-- C7: the cache is a single mapping keyed by trimmed text only, shared
across providers (language pairs): after provider `p1` translates `t`
successfully, a call for the same trimmed string against any other
provider `p2` returns `p1`'s cached translation with the state unchanged
— `p2` is never invoked. -/
theorem c7_cache_shared_across_pairs (p1 p2 : Provider) (st : TState)
    (t zh : String) (hnb : pyStrip t ≠ "")
    (hmiss : lookupC st.cache (pyStrip t) = none)
    (hok : p1 st.calls (pyStrip t) = some zh) :
    translate_text_string p1 (Cell.s t) st =
      (Cell.s zh, ⟨insertC st.cache (pyStrip t) zh, st.calls + 1⟩) ∧
    translate_text_string p2 (Cell.s t)
        ⟨insertC st.cache (pyStrip t) zh, st.calls + 1⟩ =
      (Cell.s zh, ⟨insertC st.cache (pyStrip t) zh, st.calls + 1⟩) := by
  constructor
  · rw [ttsMissS p1 st t hnb hmiss,
      tryTranslate_success p1 (pyStrip t) 0 3 st zh (by omega)
        (fun i hi => absurd hi (by omega)) hok]
  · exact ttsHitS p2 ⟨insertC st.cache (pyStrip t) zh, st.calls + 1⟩ t zh
      hnb (lookupC_insert_self st.cache (pyStrip t) zh)

/-- Witness for C7: `hi` translated by the sample provider, then looked
up under the failing provider (a different language pair). -/
theorem c7_cache_shared_across_pairs_witness :
    pyStrip "hi" ≠ "" ∧
    lookupC ([] : List (String × String)) (pyStrip "hi") = none ∧
    sampleProvider ((⟨[], 0⟩ : TState).calls) (pyStrip "hi") =
      some "Thi" ∧
    (translate_text_string sampleProvider (Cell.s "hi") ⟨[], 0⟩ =
      (Cell.s "Thi", ⟨insertC [] (pyStrip "hi") "Thi", 0 + 1⟩) ∧
    translate_text_string failingProvider (Cell.s "hi")
        ⟨insertC [] (pyStrip "hi") "Thi", 0 + 1⟩ =
      (Cell.s "Thi", ⟨insertC [] (pyStrip "hi") "Thi", 0 + 1⟩)) :=
  ⟨by decide, rfl, by decide,
    c7_cache_shared_across_pairs sampleProvider failingProvider ⟨[], 0⟩
      "hi" "Thi" (by decide) rfl (by decide)⟩

/-- Translating a row of values preserves its length. -/
theorem translateCells_length (p : Provider) :
    ∀ (xs : List Cell) (st : TState),
      (translateCells p xs st).1.length = xs.length := by
  intro xs
  induction xs with
  | nil => intro st; rfl
  | cons v rest ih =>
    intro st
    simp [translateCells, ih]

/-- Translating the columns preserves the column count and every column
length. -/
theorem translateCols_shape (p : Provider) :
    ∀ (cs : List (List Cell)) (st : TState),
      (translateCols p cs st).1.map List.length = cs.map List.length := by
  intro cs
  induction cs with
  | nil => intro st; rfl
  | cons c rest ih =>
    intro st
    simp [translateCols, translateCells_length, ih]

/-- The translated frame has as many column headers as the input. -/
theorem translate_csv_header_length (p : Provider) (t : Table)
    (st : TState) :
    (translate_csv_file p t st).1.header.length = t.header.length := by
  simp [translate_csv_file, translateCells_length]

/-- The translated frame has the same column count and per-column row
count as the input, in order. -/
theorem translate_csv_cols_shape (p : Provider) (t : Table) (st : TState) :
    (translate_csv_file p t st).1.cols.map List.length =
      t.cols.map List.length := by
  simp [translate_csv_file, translateCols_shape]

/-- With an always-failing provider and an empty cache,
`translate_text_string` produces exactly the fallback value, keeps the
cache empty, and spends 3 invocations on each non-blank value. -/
theorem ttsFail_empty (v : Cell) (c : Nat) :
    translate_text_string failingProvider v ⟨[], c⟩ =
      (fallbackCell v,
        ⟨[], if v = Cell.pynone ∨ pyStrip (cellStr v) = "" then c
          else c + 3⟩) := by
  by_cases hb : v = Cell.pynone ∨ pyStrip (cellStr v) = ""
  · rw [ttsBlank failingProvider ⟨[], c⟩ v hb]
    simp [fallbackCell, hb]
  · have hm : lookupC (⟨[], c⟩ : TState).cache (pyStrip (cellStr v)) =
        none := rfl
    rw [ttsMiss failingProvider ⟨[], c⟩ v hb hm,
      tryTranslate_all_fail failingProvider (pyStrip (cellStr v)) 3
        ⟨[], c⟩ (fun i _ => rfl)]
    simp [fallbackCell, hb]

/-- Row version of `ttsFail_empty`: every value falls back independently
and the cache stays empty. -/
theorem cellsFail_empty :
    ∀ (xs : List Cell) (c : Nat),
      (translateCells failingProvider xs ⟨[], c⟩).1 =
        xs.map fallbackCell ∧
      ∃ c2, (translateCells failingProvider xs ⟨[], c⟩).2 = ⟨[], c2⟩ := by
  intro xs
  induction xs with
  | nil => intro c; exact ⟨rfl, c, rfl⟩
  | cons v rest ih =>
    intro c
    simp only [translateCells]
    rw [ttsFail_empty v c]
    obtain ⟨ih1, c2, ih2⟩ :=
      ih (if v = Cell.pynone ∨ pyStrip (cellStr v) = "" then c else c + 3)
    refine ⟨?_, c2, ?_⟩
    · simp [ih1]
    · simp [ih2]

/-- Column-list version of `ttsFail_empty`. -/
theorem colsFail_empty :
    ∀ (cs : List (List Cell)) (c : Nat),
      (translateCols failingProvider cs ⟨[], c⟩).1 =
        cs.map (List.map fallbackCell) ∧
      ∃ c2, (translateCols failingProvider cs ⟨[], c⟩).2 = ⟨[], c2⟩ := by
  intro cs
  induction cs with
  | nil => intro c; exact ⟨rfl, c, rfl⟩
  | cons col rest ih =>
    intro c
    simp only [translateCols]
    obtain ⟨h1, c1, h2⟩ := cellsFail_empty col c
    rw [h1, h2]
    obtain ⟨ih1, c2, ih2⟩ := ih c1
    refine ⟨?_, c2, ?_⟩
    · simp [ih1]
    · simp [ih2]

/-- C5 is about missing cells of a parsed frame.  pandas parses a missing
CSV/Excel cell as the float `NaN`, which is not Python `None` and whose
`str` form is the non-blank text `nan`, so the walk sends it to the
provider and replaces it: here a one-cell frame whose only data cell is
missing comes back with that cell rewritten to the provider translation
of the word `nan` (and the cache shows the provider was invoked for key
`nan`), contradicting pass-through. -/
theorem c5_missing_cell_sent_to_provider :
    translate_csv_file sampleProvider
        ⟨[Cell.s "Name"], [[Cell.nan]]⟩ ⟨[], 0⟩ =
      (⟨[Cell.s "TName"], [[Cell.s "Tnan"]]⟩,
        ⟨[("nan", "Tnan"), ("Name", "TName")], 2⟩) ∧
    (translate_csv_file sampleProvider
        ⟨[Cell.s "Name"], [[Cell.nan]]⟩ ⟨[], 0⟩).1.cols ≠ [[Cell.nan]] := by
  constructor
  · decide
  · decide

/-- C6: for every provider, state and parsed input, the translated frame
keeps the number of columns and every per-column row count, in order; the
translated workbook keeps the sheet names in order — names are copied,
never routed through translation — and each sheet keeps its frame
shape. -/
theorem c6_structure_preserved (p : Provider) :
    (∀ (t : Table) (st : TState),
        (translate_csv_file p t st).1.header.length = t.header.length ∧
        (translate_csv_file p t st).1.cols.map List.length =
          t.cols.map List.length) ∧
    (∀ (sheets : List (String × Table)) (st : TState),
        (translate_excel_file p sheets st).1.map Prod.fst =
          sheets.map Prod.fst ∧
        (translate_excel_file p sheets st).1.map
            (fun sh => sh.2.header.length) =
          sheets.map (fun sh => sh.2.header.length) ∧
        (translate_excel_file p sheets st).1.map
            (fun sh => sh.2.cols.map List.length) =
          sheets.map (fun sh => sh.2.cols.map List.length)) := by
  constructor
  · intro t st
    exact ⟨translate_csv_header_length p t st,
      translate_csv_cols_shape p t st⟩
  · intro sheets
    induction sheets with
    | nil => intro st; exact ⟨rfl, rfl, rfl⟩
    | cons sh rest ih =>
      intro st
      obtain ⟨name, tb⟩ := sh
      obtain ⟨i1, i2, i3⟩ := ih (translate_csv_file p tb st).2
      refine ⟨?_, ?_, ?_⟩
      · simp only [translate_excel_file, List.map_cons]
        rw [i1]
      · simp only [translate_excel_file, List.map_cons]
        rw [translate_csv_header_length p tb st, i2]
      · simp only [translate_excel_file, List.map_cons]
        rw [translate_csv_cols_shape p tb st, i3]

/-- C9: once a document is parsed the walk always runs to completion: for
every provider it yields a full frame of the input shape, and even when
every provider call fails (each unit exhausting its retry budget) the
result is the complete best-effort frame — blanks kept, every other unit
replaced by its trimmed fallback — with the cache left empty; no error
escapes the walk. -/
theorem c9_walk_always_completes (t : Table) (c : Nat) :
    (∀ p : Provider, ∃ (out : Table) (st2 : TState),
        translate_csv_file p t ⟨[], c⟩ = (out, st2) ∧
        out.header.length = t.header.length ∧
        out.cols.map List.length = t.cols.map List.length) ∧
    (translate_csv_file failingProvider t ⟨[], c⟩).1 =
      ⟨t.header.map fallbackCell, t.cols.map (List.map fallbackCell)⟩ ∧
    (translate_csv_file failingProvider t ⟨[], c⟩).2.cache = [] := by
  refine ⟨?_, ?_, ?_⟩
  · intro p
    exact ⟨(translate_csv_file p t ⟨[], c⟩).1,
      (translate_csv_file p t ⟨[], c⟩).2, rfl,
      translate_csv_header_length p t ⟨[], c⟩,
      translate_csv_cols_shape p t ⟨[], c⟩⟩
  · obtain ⟨h1, c1, h2⟩ := cellsFail_empty t.header c
    simp only [translate_csv_file]
    rw [h1, h2]
    obtain ⟨g1, c2, g2⟩ := colsFail_empty t.cols c1
    rw [g1]
  · obtain ⟨h1, c1, h2⟩ := cellsFail_empty t.header c
    simp only [translate_csv_file]
    rw [h2]
    obtain ⟨g1, c2, g2⟩ := colsFail_empty t.cols c1
    rw [g2]

/-- Stripping whitespace from both ends is idempotent. -/
theorem stripChars_idem (l : List Char) :
    stripChars (stripChars l) = stripChars l := by
  unfold stripChars
  have h1 : List.dropWhile pyWS
      (List.rdropWhile pyWS (List.dropWhile pyWS l)) =
      List.rdropWhile pyWS (List.dropWhile pyWS l) := by
    cases hB : List.rdropWhile pyWS (List.dropWhile pyWS l) with
    | nil => simp
    | cons b bs =>
      have hpre := List.rdropWhile_prefix pyWS (List.dropWhile pyWS l)
      rw [hB] at hpre
      obtain ⟨tail0, ht⟩ := hpre
      have hA : List.dropWhile pyWS l = b :: (bs ++ tail0) := by
        rw [← ht, List.cons_append]
      have hidem : List.dropWhile pyWS (b :: (bs ++ tail0)) =
          b :: (bs ++ tail0) := by
        rw [← hA]
        exact List.dropWhile_idempotent pyWS l
      have hwb : pyWS b = false := by
        cases hx : pyWS b with
        | false => rfl
        | true =>
          exfalso
          rw [List.dropWhile_cons, if_pos hx] at hidem
          have hlen :=
            (List.dropWhile_suffix (l := bs ++ tail0) pyWS).length_le
          rw [hidem] at hlen
          simp at hlen
      simp [List.dropWhile_cons, hwb]
  rw [h1, List.rdropWhile_idempotent]

/-- Python `strip` is idempotent. -/
theorem pyStrip_idem (t : String) : pyStrip (pyStrip t) = pyStrip t := by
  show (⟨stripChars (stripChars t.data)⟩ : String) = ⟨stripChars t.data⟩
  rw [stripChars_idem]

/-- C10: for every non-null value whose text form is not whitespace-only,
`translate_text_string` computes exactly what it computes for the trimmed
text of that value under the same cache and provider state: the result
depends only on the trimmed string, so surrounding whitespace of a
non-blank input is never preserved. -/
theorem c10_trim_invariance (p : Provider) (st : TState) (v : Cell)
    (hv : v ≠ Cell.pynone) (hnb : pyStrip (cellStr v) ≠ "") :
    translate_text_string p v st =
      translate_text_string p (Cell.s (pyStrip (cellStr v))) st := by
  have hb1 : ¬(v = Cell.pynone ∨ pyStrip (cellStr v) = "") := by
    intro h
    rcases h with h | h
    · exact hv h
    · exact hnb h
  have hkey : pyStrip (cellStr (Cell.s (pyStrip (cellStr v)))) =
      pyStrip (cellStr v) := by
    simp only [cellStr_s]
    exact pyStrip_idem (cellStr v)
  have hb2 : ¬(Cell.s (pyStrip (cellStr v)) = Cell.pynone ∨
      pyStrip (cellStr (Cell.s (pyStrip (cellStr v)))) = "") := by
    intro h
    rcases h with h | h
    · exact Cell.noConfusion h
    · rw [hkey] at h
      exact hnb h
  unfold translate_text_string
  rw [if_neg hb1, if_neg hb2, hkey]

/-- Witness for C10: a string with surrounding whitespace. -/
theorem c10_trim_invariance_witness :
    Cell.s " hi " ≠ Cell.pynone ∧
    pyStrip (cellStr (Cell.s " hi ")) ≠ "" ∧
    translate_text_string sampleProvider (Cell.s " hi ") ⟨[], 0⟩ =
      translate_text_string sampleProvider
        (Cell.s (pyStrip (cellStr (Cell.s " hi ")))) ⟨[], 0⟩ :=
  ⟨by decide, by decide,
    c10_trim_invariance sampleProvider ⟨[], 0⟩ (Cell.s " hi ")
      (by decide) (by decide)⟩

/-- `str.lower()` distributes over concatenation. -/
theorem pyLower_append (a b : String) :
    pyLower (a ++ b) = pyLower a ++ pyLower b := by
  show (⟨(a ++ b).data.map Char.toLower⟩ : String) =
    ⟨(pyLower a).data ++ (pyLower b).data⟩
  exact congrArg String.mk
    (by rw [String.data_append, List.map_append]; rfl)

/-- `endswith` holds for a literally appended ending. -/
theorem pyEndsWith_append (a b : String) : pyEndsWith (a ++ b) b = true := by
  have h : b.data <:+ (a ++ b).data := by
    rw [String.data_append]
    exact List.suffix_append a.data b.data
  exact (List.isSuffixOf_iff_suffix).mpr h

/-- Of two endings of the same list, the shorter is an ending of the
longer. -/
theorem suffix_suffix_le {A B m : List Char} (hA : A <:+ m) (hB : B <:+ m)
    (h : B.length ≤ A.length) : B <:+ A := by
  have hAm := hA.length_le
  rw [List.suffix_iff_eq_drop] at hA hB
  rw [List.suffix_iff_eq_drop]
  calc B = m.drop (m.length - B.length) := hB
    _ = (m.drop (m.length - A.length)).drop (A.length - B.length) := by
        rw [List.drop_drop]
        congr 1
        omega
    _ = A.drop (A.length - B.length) := by rw [← hA]

/-- A name ending in `b` does not `endswith` a suffix that is at most as
long as `b` but is not an ending of `b`. -/
theorem pyEndsWith_tail_short (a b suf : String)
    (h : suf.data.length ≤ b.data.length)
    (hns : ¬suf.data <:+ b.data) :
    pyEndsWith (a ++ b) suf = false := by
  cases hx : pyEndsWith (a ++ b) suf with
  | false => rfl
  | true =>
    exfalso
    have hsfx : suf.data <:+ (a ++ b).data :=
      (List.isSuffixOf_iff_suffix).mp hx
    rw [String.data_append] at hsfx
    exact hns
      (suffix_suffix_le (List.suffix_append a.data b.data) hsfx h)

/-- A name ending in `b` does not `endswith` a suffix that is at least as
long as `b` unless `b` ends that suffix. -/
theorem pyEndsWith_tail_long (a b suf : String)
    (h : b.data.length ≤ suf.data.length)
    (hns : ¬b.data <:+ suf.data) :
    pyEndsWith (a ++ b) suf = false := by
  cases hx : pyEndsWith (a ++ b) suf with
  | false => rfl
  | true =>
    exfalso
    have hsfx : suf.data <:+ (a ++ b).data :=
      (List.isSuffixOf_iff_suffix).mp hx
    rw [String.data_append] at hsfx
    exact hns
      (suffix_suffix_le hsfx (List.suffix_append a.data b.data) h)

/-- `rsplit(".", 1)[0]` strips exactly the final dot-separated extension:
appending a dot and a dot-free extension to any base gives back the
base. -/
theorem rsplitDotHead_ext (b ext : String)
    (hext : ∀ c ∈ ext.data, (c != '.') = true) :
    rsplitDotHead (b ++ "." ++ ext) = b := by
  unfold rsplitDotHead
  have hdata : (b ++ "." ++ ext).data = (b.data ++ ['.']) ++ ext.data := by
    rw [String.data_append, String.data_append]
  rw [hdata, List.reverse_append, List.reverse_append]
  have he : List.dropWhile (fun c => c != '.') ext.data.reverse = [] := by
    rw [List.dropWhile_eq_nil_iff]
    intro x hx
    exact hext x (List.mem_reverse.mp hx)
  rw [List.dropWhile_append, he]
  show (match List.dropWhile (fun c => c != '.')
      (['.'].reverse ++ b.data.reverse) with
    | [] => b ++ "." ++ ext
    | _ :: rest => (⟨rest.reverse⟩ : String)) = b
  have hd : List.dropWhile (fun c => c != '.')
      (['.'].reverse ++ b.data.reverse) = '.' :: b.data.reverse := by
    show List.dropWhile (fun c => c != '.') ('.' :: b.data.reverse) =
      '.' :: b.data.reverse
    rw [List.dropWhile_cons]
    simp
  rw [hd]
  show (⟨b.data.reverse.reverse⟩ : String) = b
  rw [List.reverse_reverse]

/-- The dispatch of `main` on a name ending in `.csv`. -/
theorem mainOutName_csv (b : String) :
    mainOutName (b ++ ".csv") = some (b ++ "_translated.csv") := by
  unfold mainOutName
  have h1 : pyEndsWith (pyLower (b ++ ".csv")) ".csv" = true := by
    rw [pyLower_append, show pyLower ".csv" = ".csv" from by decide]
    exact pyEndsWith_append (pyLower b) ".csv"
  rw [if_pos h1]
  have e1 : b ++ ".csv" = b ++ "." ++ "csv" := by
    rw [String.append_assoc,
      show ("." ++ "csv" : String) = ".csv" from by decide]
  rw [e1, rsplitDotHead_ext b "csv" (by decide)]

/-- The dispatch of `main` on a name ending in `.txt`. -/
theorem mainOutName_txt (b : String) :
    mainOutName (b ++ ".txt") = some (b ++ "_translated.txt") := by
  unfold mainOutName
  have hlow : pyLower (b ++ ".txt") = pyLower b ++ ".txt" := by
    rw [pyLower_append, show pyLower ".txt" = ".txt" from by decide]
  have h0 : pyEndsWith (pyLower (b ++ ".txt")) ".csv" = false := by
    rw [hlow]
    exact pyEndsWith_tail_short (pyLower b) ".txt" ".csv" (by decide)
      (by decide)
  have h1 : pyEndsWith (pyLower (b ++ ".txt")) ".txt" = true := by
    rw [hlow]
    exact pyEndsWith_append (pyLower b) ".txt"
  rw [if_neg (by simp [h0]), if_pos h1]
  have e1 : b ++ ".txt" = b ++ "." ++ "txt" := by
    rw [String.append_assoc,
      show ("." ++ "txt" : String) = ".txt" from by decide]
  rw [e1, rsplitDotHead_ext b "txt" (by decide)]

/-- The dispatch of `main` on a name ending in `.xlsx`. -/
theorem mainOutName_xlsx (b : String) :
    mainOutName (b ++ ".xlsx") = some (b ++ "_translated.xlsx") := by
  unfold mainOutName
  have hlow : pyLower (b ++ ".xlsx") = pyLower b ++ ".xlsx" := by
    rw [pyLower_append, show pyLower ".xlsx" = ".xlsx" from by decide]
  have h0 : pyEndsWith (pyLower (b ++ ".xlsx")) ".csv" = false := by
    rw [hlow]
    exact pyEndsWith_tail_short (pyLower b) ".xlsx" ".csv" (by decide)
      (by decide)
  have h1 : pyEndsWith (pyLower (b ++ ".xlsx")) ".txt" = false := by
    rw [hlow]
    exact pyEndsWith_tail_short (pyLower b) ".xlsx" ".txt" (by decide)
      (by decide)
  have h2 : pyEndsWith (pyLower (b ++ ".xlsx")) ".xlsx" = true := by
    rw [hlow]
    exact pyEndsWith_append (pyLower b) ".xlsx"
  rw [if_neg (by simp [h0]), if_neg (by simp [h1]),
    if_pos (Or.inl h2)]
  have e1 : b ++ ".xlsx" = b ++ "." ++ "xlsx" := by
    rw [String.append_assoc,
      show ("." ++ "xlsx" : String) = ".xlsx" from by decide]
  rw [e1, rsplitDotHead_ext b "xlsx" (by decide)]

/-- The dispatch of `main` on a name ending in `.xls`: the output still
gets the `.xlsx` extension. -/
theorem mainOutName_xls (b : String) :
    mainOutName (b ++ ".xls") = some (b ++ "_translated.xlsx") := by
  unfold mainOutName
  have hlow : pyLower (b ++ ".xls") = pyLower b ++ ".xls" := by
    rw [pyLower_append, show pyLower ".xls" = ".xls" from by decide]
  have h0 : pyEndsWith (pyLower (b ++ ".xls")) ".csv" = false := by
    rw [hlow]
    exact pyEndsWith_tail_short (pyLower b) ".xls" ".csv" (by decide)
      (by decide)
  have h1 : pyEndsWith (pyLower (b ++ ".xls")) ".txt" = false := by
    rw [hlow]
    exact pyEndsWith_tail_short (pyLower b) ".xls" ".txt" (by decide)
      (by decide)
  have h2 : pyEndsWith (pyLower (b ++ ".xls")) ".xls" = true := by
    rw [hlow]
    exact pyEndsWith_append (pyLower b) ".xls"
  rw [if_neg (by simp [h0]), if_neg (by simp [h1]),
    if_pos (Or.inr h2)]
  have e1 : b ++ ".xls" = b ++ "." ++ "xls" := by
    rw [String.append_assoc,
      show ("." ++ "xls" : String) = ".xls" from by decide]
  rw [e1, rsplitDotHead_ext b "xls" (by decide)]

/-- C8: for every base name, the dispatch of `main` strips the final
extension, appends `_translated`, then appends the output format's
extension: `.csv` stays `.csv`, `.txt` stays `.txt`, and both `.xlsx`
and `.xls` produce `.xlsx`. -/
theorem c8_output_naming (b : String) :
    mainOutName (b ++ ".csv") = some (b ++ "_translated.csv") ∧
    mainOutName (b ++ ".txt") = some (b ++ "_translated.txt") ∧
    mainOutName (b ++ ".xlsx") = some (b ++ "_translated.xlsx") ∧
    mainOutName (b ++ ".xls") = some (b ++ "_translated.xlsx") :=
  ⟨mainOutName_csv b, mainOutName_txt b, mainOutName_xlsx b,
    mainOutName_xls b⟩

end TranslatorApp
